import Mathlib

/-!
Formal model of the body-expansion engine of the template-codegen CLI
(`src/generator.ts`, class `Generator`).

JavaScript strings are modelled as Lean `String`s (with `List Char` as the
underlying representation); `String.prototype.replace` with a `g`-flagged
regex over an escaped literal pattern is modelled as leftmost, non-overlapping
global literal replacement (`jsReplace`), including the `GetSubstitution`
interpretation of dollar forms in the replacement string; the replaced text is
not rescanned, matching the regex engine's behaviour.  Non-ASCII case mapping
and non-ASCII whitespace in `trim` are outside the model.
JSON-like runtime values are modelled by the inductive `BodyValue`; JavaScript
property lookup `variableTemplates[fieldType]` coerces its key with the
abstract `ToString` operation, modelled by `jsToString` (arrays join their
elements with commas, `null` coerces to `"null"`, and so on), and consults the
prototype chain (`lookupTemplate`): a tag naming an `Object.prototype` member
finds the truthy inherited member, and the subsequent `template.replace` call
throws a `TypeError`.  `processFieldE` is the faithful fallible walker with
this throw; `processField` is the same walker with the throw suppressed (it
records what each traversal step appends to the accumulators), and the two
agree on every throw-free input (`processEntriesE_ok`).
The asynchronous file loop of `Generator.generate` is modelled by
`generateModel`: each file's read/substitute/write pipeline is abstracted to
its outcome (`FileOutcome`), a thrown error aborts the loop, and the single
top-level `catch` converts it to one error string.
-/

/-- Boolean test deciding whether `pat` is a prefix of a character list. -/
def isPrefixL : List Char → List Char → Bool
  | [], _ => true
  | _ :: _, [] => false
  | p :: ps, s :: ss => p == s && isPrefixL ps ss

/-- ECMA-262 `GetSubstitution` for a regex with no capture groups and no
named groups (the only regexes handed to the model are escaped literals): in
the replacement template, a double dollar yields one dollar, dollar-ampersand
yields the matched substring, dollar-backquote yields the portion of the
subject before the match, dollar-quote the portion after it, and any other
dollar (including dollar-digit, since there are zero capture groups) is
literal text. -/
def getSubstitution (matched before after : List Char) : List Char → List Char
  | [] => []
  | c :: rest =>
    if c = '$' then
      match rest with
      | [] => ['$']
      | d :: rest2 =>
        if d = '$' then '$' :: getSubstitution matched before after rest2
        else if d = '&' then matched ++ getSubstitution matched before after rest2
        else if d = '\x60' then before ++ getSubstitution matched before after rest2
        else if d = '\x27' then after ++ getSubstitution matched before after rest2
        else '$' :: d :: getSubstitution matched before after rest2
    else
      c :: getSubstitution matched before after rest

/-- Fuel-driven worker for global literal replacement.  `pre` accumulates the
portion of the original subject already consumed (needed by `GetSubstitution`
for the dollar-backquote form).  Each step consumes at least one input
character, so fuel equal to the input length suffices. -/
def replaceGo (pat rep : List Char) : Nat → List Char → List Char → List Char
  | _, _, [] => []
  | 0, _, s => s
  | fuel + 1, pre, c :: cs =>
    if !pat.isEmpty && isPrefixL pat (c :: cs) then
      getSubstitution pat pre (List.drop (pat.length - 1) cs) rep
        ++ replaceGo pat rep fuel (pre ++ pat) (List.drop (pat.length - 1) cs)
    else
      c :: replaceGo pat rep fuel (pre ++ [c]) cs

/-- Global literal replacement of `pat` in `s`, with `pre` the already
consumed part of the original subject. -/
def replaceCore (pat rep pre s : List Char) : List Char := replaceGo pat rep s.length pre s

/-- Leftmost, non-overlapping global replacement of the literal pattern `pat`,
each occurrence replaced by the `GetSubstitution` expansion of `rep`: the
model of `String.prototype.replace(/escaped-literal/g, rep)`.  The replaced
text is not rescanned, matching the regex engine's behaviour. -/
def replaceL (pat rep s : List Char) : List Char := replaceCore pat rep [] s

/-- Model of `s.replace(/pat/g, rep)` for a literal (escaped) pattern. -/
def jsReplace (s pat rep : String) : String := ⟨replaceL pat.data rep.data s.data⟩

/-- Boolean test deciding whether `needle` occurs inside `hay`. -/
def occursIn (needle hay : List Char) : Bool :=
  isPrefixL needle hay ||
    match hay with
    | [] => false
    | _ :: t => occursIn needle t

/-- String-level wrapper of `occursIn`: `containsStr hay needle` decides
whether `needle` is a substring of `hay`. -/
def containsStr (hay needle : String) : Bool := occursIn needle.data hay.data

/-- Whitespace characters relevant to the strings this generator produces
(the model of `String.prototype.trim` on its actual inputs). -/
def isWsp (c : Char) : Bool := c == ' ' || c == '\t' || c == '\n' || c == '\r'

/-- Drop whitespace from both ends of a character list. -/
def trimL (l : List Char) : List Char :=
  ((l.dropWhile isWsp).reverse.dropWhile isWsp).reverse

/-- Model of `String.prototype.trim()`. -/
def jsTrim (s : String) : String := ⟨trimL s.data⟩

/-- Model of `.replace(/,$/, '')`: remove one trailing comma if present
(the anchor `$` without the `m` flag matches only at the very end). -/
def stripTrailingComma (s : String) : String :=
  match s.data.reverse with
  | ',' :: rest => ⟨rest.reverse⟩
  | _ => s

/-- Model of `allFields.join(', ')`. -/
def joinFields : List String → String
  | [] => ""
  | [x] => x
  | x :: y :: rest => x ++ ", " ++ joinFields (y :: rest)

/-- Model of `Generator.capitalize`: `str.charAt(0).toUpperCase() + str.slice(1)`. -/
def capitalize (s : String) : String :=
  match s.data with
  | [] => ""
  | c :: cs => ⟨Char.toUpper c :: cs⟩

/-- Model of `Generator.toCamelCase`: `str.charAt(0).toLowerCase() + str.slice(1)`. -/
def toCamelCase (s : String) : String :=
  match s.data with
  | [] => ""
  | c :: cs => ⟨Char.toLower c :: cs⟩

/-- Model of `str.toUpperCase()` (ASCII fragment). -/
def toUpperCase (s : String) : String := ⟨s.data.map Char.toUpper⟩

/-- Character class `[a-z0-9]` of the kebab/snake boundary regex. -/
def isLowerNum (c : Char) : Bool := ('a' ≤ c && c ≤ 'z') || ('0' ≤ c && c ≤ '9')

/-- Character class `[A-Z]` of the kebab/snake boundary regex. -/
def isUpperAlpha (c : Char) : Bool := 'A' ≤ c && c ≤ 'Z'

/-- Model of the boundary regex pass of `toKebabCase`/`toSnakeCase`: insert
`sep` at every lower-alphanumeric-followed-by-uppercase boundary.  The regex
consumes both matched characters; since an uppercase character can never start
a new match, the plain scan below is equivalent. -/
def boundarySep (sep : Char) : List Char → List Char
  | a :: b :: rest =>
    if isLowerNum a && isUpperAlpha b then a :: sep :: boundarySep sep (b :: rest)
    else a :: boundarySep sep (b :: rest)
  | l => l

/-- Model of `Generator.toKebabCase`. -/
def toKebabCase (s : String) : String := ⟨(boundarySep '-' s.data).map Char.toLower⟩

/-- Model of `Generator.toSnakeCase`. -/
def toSnakeCase (s : String) : String := ⟨(boundarySep '_' s.data).map Char.toLower⟩

/-- Model of `Generator.replacePlaceholders`: the seven sequential global
module-name replacements, in source order. -/
def replacePlaceholders (text moduleName : String) : String :=
  jsReplace (jsReplace (jsReplace (jsReplace (jsReplace (jsReplace (jsReplace text
    "\x7b\x7bname\x7d\x7d" moduleName)
    "\x7b\x7bName\x7d\x7d" (capitalize moduleName))
    "\x7b\x7bNAME\x7d\x7d" (toUpperCase moduleName))
    "\x7b\x7bname-kebab\x7d\x7d" (toKebabCase moduleName))
    "\x7b\x7bname_snake\x7d\x7d" (toSnakeCase moduleName))
    "\x7b\x7bname.camel\x7d\x7d" (toCamelCase moduleName))
    "\x7b\x7bname.pascal\x7d\x7d" (capitalize moduleName)

/-- Placeholder-name/replacement pairs of `replacePlaceholders`, in the order
the source applies them; pair `(p, r)` stands for replacing the double-brace
token named `p` by `r`. -/
def modulePairs (moduleName : String) : List (String × String) :=
  [("name", moduleName),
   ("Name", capitalize moduleName),
   ("NAME", toUpperCase moduleName),
   ("name-kebab", toKebabCase moduleName),
   ("name_snake", toSnakeCase moduleName),
   ("name.camel", toCamelCase moduleName),
   ("name.pascal", capitalize moduleName)]

mutual
/-- JSON-like runtime value supplied as the body object: a leaf type tag,
another primitive, an array, or a nested group (plain object). -/
inductive BodyValue where
  | str (s : String)
  | num (n : Int)
  | bool (b : Bool)
  | null
  | obj (es : Entries)
  | arr (xs : Elems)
/-- Entry list of a group, in key insertion order. -/
inductive Entries where
  | nil
  | cons (k : String) (v : BodyValue) (rest : Entries)
/-- Element list of an array value. -/
inductive Elems where
  | enil
  | econs (v : BodyValue) (rest : Elems)
end

/-- Append on `Entries` (object entry lists). -/
def eapp : Entries → Entries → Entries
  | .nil, b => b
  | .cons k v rest, b => .cons k v (eapp rest b)

/-- Model of the group test `typeof v === 'object' && v !== null && !Array.isArray(v)`. -/
def isGroupVal : BodyValue → Bool
  | .obj _ => true
  | _ => false

/-- Model of the full-path computation, where an empty prefix is falsy. -/
def fullPathOf (pfx key : String) : String :=
  if pfx = "" then key else pfx ++ "." ++ key

mutual
/-- JavaScript `ToString` of a value in array-element position (as used by
`Array.prototype.join`), where `null` renders as the empty string. -/
def jsStrElem : BodyValue → String
  | .str s => s
  | .num n => toString n
  | .bool b => if b then "true" else "false"
  | .null => ""
  | .obj _ => "[object Object]"
  | .arr xs => jsJoin xs
/-- JavaScript `Array.prototype.join(',')` over the element coercions. -/
def jsJoin : Elems → String
  | .enil => ""
  | .econs x .enil => jsStrElem x
  | .econs x rest => jsStrElem x ++ "," ++ jsJoin rest
end

/-- JavaScript `ToString` of a top-level value, the coercion applied by
property lookup `variableTemplates[fieldType]` (`ToPropertyKey`). -/
def jsToString : BodyValue → String
  | .null => "null"
  | v => jsStrElem v

/-- Member lines of the `export interface` declaration a group emits: one line
per immediate child, groups typed by their capitalized key, everything else
typed `string`. -/
def interfaceMembers : Entries → String
  | .nil => ""
  | .cons k v rest =>
    (if isGroupVal v then "  " ++ k ++ ": " ++ capitalize k ++ ";\n"
     else "  " ++ k ++ ": string;\n") ++ interfaceMembers rest

mutual
/-- Default-value rendering of one child inside a nested default literal:
a group renders its own brace-delimited literal, anything else the leaf
default `''` (model of `Generator.generateNestedDefaults`). -/
def defaultsOfVal : BodyValue → String
  | .obj es => "\x7b\n" ++ entriesDefaults es ++ "  \x7d"
  | _ => "''"
/-- The member lines of a nested default literal, in entry order. -/
def entriesDefaults : Entries → String
  | .nil => ""
  | .cons k v rest => "    " ++ k ++ ": " ++ defaultsOfVal v ++ ",\n" ++ entriesDefaults rest
end

/-- The object literal `generateNestedDefaults` returns for a group's entries. -/
def generateNestedDefaults (es : Entries) : String :=
  "\x7b\n" ++ entriesDefaults es ++ "  \x7d"

mutual
/-- Zod-schema rendering of one child inside a nested schema literal:
a group renders `z.object(...)`, anything else `z.string()` (model of
`Generator.generateNestedZodSchema`). -/
def zodOfVal : BodyValue → String
  | .obj es => "z.object(\x7b\n" ++ zodEntries es ++ "  \x7d)"
  | _ => "z.string()"
/-- The member lines of a nested zod literal, in entry order. -/
def zodEntries : Entries → String
  | .nil => ""
  | .cons k v rest => "    " ++ k ++ ": " ++ zodOfVal v ++ ",\n" ++ zodEntries rest
end

/-- The object literal `generateNestedZodSchema` returns for a group's entries. -/
def generateNestedZodSchema (es : Entries) : String :=
  "\x7b\n" ++ zodEntries es ++ "  \x7d"

/-- The mutable accumulator record of `generateBodyReplacements`: the six text
buffers plus the `allFields` list (joined only at finalization). -/
structure Repl where
  formItems : String
  types : String
  defaultValues : String
  fieldsList : List String
  interfaces : String
  zodSchema : String
deriving DecidableEq

/-- Accumulators start empty on every generation call. -/
def emptyRepl : Repl := ⟨"", "", "", [], "", ""⟩

/-- Componentwise concatenation of accumulator records. -/
def rappend (a b : Repl) : Repl :=
  ⟨a.formItems ++ b.formItems, a.types ++ b.types, a.defaultValues ++ b.defaultValues,
   a.fieldsList ++ b.fieldsList, a.interfaces ++ b.interfaces, a.zodSchema ++ b.zodSchema⟩

/-- Per-field snippet substitution: the snippet's name, capitalized-name and
full-path tokens replaced globally, in source order. -/
def substituteSnippet (t key fullPath : String) : String :=
  jsReplace (jsReplace (jsReplace t "\x7b\x7bname\x7d\x7d" key)
    "\x7b\x7bName\x7d\x7d" (capitalize key))
    "\x7b\x7bfullPath\x7d\x7d" fullPath

/-- The own property keys of `Object.prototype`: a plain object literal such
as the template's `variables` map inherits these, so property access under one
of these keys that is not shadowed by an own entry returns the truthy
inherited member (a function, or `Object.prototype` itself for `__proto__`). -/
def protoKeys : List String :=
  ["constructor", "hasOwnProperty", "isPrototypeOf", "propertyIsEnumerable",
   "toLocaleString", "toString", "valueOf", "__proto__", "__defineGetter__",
   "__defineSetter__", "__lookupGetter__", "__lookupSetter__"]

/-- Result of the property access `variableTemplates[fieldType]`: an own
(string) entry, a truthy non-string member inherited from `Object.prototype`,
or `undefined`. -/
inductive LookupResult where
  | found (s : String)
  | protoFound
  | missing
deriving DecidableEq

/-- Model of `variableTemplates[fieldType]`: own entries shadow the prototype;
an unshadowed `Object.prototype` key finds the inherited member. -/
def lookupTemplate (vt : List (String × String)) (k : String) : LookupResult :=
  match List.lookup k vt with
  | some s => .found s
  | none => if k ∈ protoKeys then .protoFound else .missing

/-- Form-markup text a leaf contributes when the lookup does not throw: the
substituted snippet plus a newline when the coerced type tag finds an own map
entry (a falsy — empty — snippet contributes nothing, modelling the
truthiness test on the looked-up template); nothing otherwise.  The
`protoFound` case — where the source instead throws a `TypeError` at
`template.replace` — contributes nothing here; `processFieldE` models the
throw itself. -/
def leafFormItem (vt : List (String × String)) (key fullPath : String) (v : BodyValue) : String :=
  match lookupTemplate vt (jsToString v) with
  | .found t => if t = "" then "" else substituteSnippet t key fullPath ++ "\n"
  | _ => ""

mutual
/-- Model of the recursive closure `processField(key, value, prefix)` of
`Generator.generateBodyReplacements`, threading the accumulator record
explicitly.  The group branch appends the interface declaration, the `types`
member line, the nested default literal and the nested zod entry, then recurses
into the children with the extended path; the leaf branch appends form markup
(if the coerced tag finds an own map entry), root-only `types`/`defaultValues`
lines, and the quoted full path to the field list.  This is the
throw-suppressed mutation model: the `TypeError` raised when a leaf tag finds
an inherited `Object.prototype` member is modelled by `processFieldE`, which
agrees with this function on every throw-free input. -/
def processField (vt : List (String × String)) (key : String) (value : BodyValue)
    (pfx : String) (acc : Repl) : Repl :=
  match value with
  | .obj es =>
    processEntries vt es (fullPathOf pfx key)
      { formItems := acc.formItems
      , types := acc.types ++ "  " ++ key ++ ": " ++ capitalize key ++ ";\n"
      , defaultValues := acc.defaultValues ++ "  " ++ key ++ ": "
          ++ generateNestedDefaults es ++ ",\n"
      , fieldsList := acc.fieldsList
      , interfaces := acc.interfaces ++ "export interface " ++ capitalize key
          ++ " \x7b\n" ++ interfaceMembers es ++ "\x7d\n\n"
      , zodSchema := acc.zodSchema ++ "  " ++ key ++ ": z.object("
          ++ generateNestedZodSchema es ++ "),\n" }
  | v =>
    { formItems := acc.formItems ++ leafFormItem vt key (fullPathOf pfx key) v
    , types := if pfx = "" then acc.types ++ "  " ++ key ++ ": string;\n" else acc.types
    , defaultValues :=
        if pfx = "" then acc.defaultValues ++ "  " ++ key ++ ": '',\n" else acc.defaultValues
    , fieldsList := acc.fieldsList ++ ["'" ++ fullPathOf pfx key ++ "'"]
    , interfaces := acc.interfaces
    , zodSchema := acc.zodSchema }
/-- The entry loop over a group (or the body object itself), in entry order. -/
def processEntries (vt : List (String × String)) (es : Entries) (pfx : String)
    (acc : Repl) : Repl :=
  match es with
  | .nil => acc
  | .cons k v rest => processEntries vt rest pfx (processField vt k v pfx acc)
end

mutual
/-- The faithful fallible walker: identical to `processField`, except that a
leaf whose coerced tag finds an inherited `Object.prototype` member throws —
`template.replace` is not a function — before any of the leaf's appends
(form markup, root-level lines, field-list push) happen.  A throw aborts the
rest of the traversal and propagates to the single catch in
`Generator.generate`. -/
def processFieldE (vt : List (String × String)) (key : String) (value : BodyValue)
    (pfx : String) (acc : Repl) : Except String Repl :=
  match value with
  | .obj es =>
    processEntriesE vt es (fullPathOf pfx key)
      { formItems := acc.formItems
      , types := acc.types ++ "  " ++ key ++ ": " ++ capitalize key ++ ";\n"
      , defaultValues := acc.defaultValues ++ "  " ++ key ++ ": "
          ++ generateNestedDefaults es ++ ",\n"
      , fieldsList := acc.fieldsList
      , interfaces := acc.interfaces ++ "export interface " ++ capitalize key
          ++ " \x7b\n" ++ interfaceMembers es ++ "\x7d\n\n"
      , zodSchema := acc.zodSchema ++ "  " ++ key ++ ": z.object("
          ++ generateNestedZodSchema es ++ "),\n" }
  | v =>
    match lookupTemplate vt (jsToString v) with
    | .protoFound => .error "TypeError: template.replace is not a function"
    | _ =>
      .ok
        { formItems := acc.formItems ++ leafFormItem vt key (fullPathOf pfx key) v
        , types := if pfx = "" then acc.types ++ "  " ++ key ++ ": string;\n" else acc.types
        , defaultValues :=
            if pfx = "" then acc.defaultValues ++ "  " ++ key ++ ": '',\n"
            else acc.defaultValues
        , fieldsList := acc.fieldsList ++ ["'" ++ fullPathOf pfx key ++ "'"]
        , interfaces := acc.interfaces
        , zodSchema := acc.zodSchema }
/-- The fallible entry loop: the first thrown error aborts the traversal. -/
def processEntriesE (vt : List (String × String)) (es : Entries) (pfx : String)
    (acc : Repl) : Except String Repl :=
  match es with
  | .nil => .ok acc
  | .cons k v rest =>
    match processFieldE vt k v pfx acc with
    | .ok acc2 => processEntriesE vt rest pfx acc2
    | .error e => .error e
end

mutual
/-- Decides whether processing this field throws: a leaf throws exactly when
its coerced tag finds an inherited `Object.prototype` member; a group throws
when one of its children does. -/
def fieldThrows (vt : List (String × String)) : BodyValue → Bool
  | .obj es => entriesThrow vt es
  | v =>
    match lookupTemplate vt (jsToString v) with
    | .protoFound => true
    | _ => false
/-- Decides whether processing an entry list throws. -/
def entriesThrow (vt : List (String × String)) : Entries → Bool
  | .nil => false
  | .cons _ v rest => fieldThrows vt v || entriesThrow vt rest
end

/-- Contribution of a list of entries processed from the empty accumulator,
one `rappend` segment per entry, in entry order. -/
def entriesDelta (vt : List (String × String)) (pfx : String) : Entries → Repl
  | .nil => emptyRepl
  | .cons k v rest => rappend (processField vt k v pfx emptyRepl) (entriesDelta vt pfx rest)

/-- The finalized replacement record returned by `generateBodyReplacements`. -/
structure BodyReplacements where
  formItems : String
  types : String
  defaultValues : String
  fields : String
  interfaces : String
  zodSchema : String
deriving DecidableEq

/-- Model of `Generator.generateBodyReplacements`: fresh accumulators, one
traversal, then finalization (`fields` joined with `', '`; `defaultValues`
trimmed and stripped of a single trailing comma). -/
def generateBodyReplacements (vt : List (String × String)) (bodyObject : Entries) :
    BodyReplacements :=
  let r := processEntries vt bodyObject "" emptyRepl
  { formItems := r.formItems
  , types := r.types
  , defaultValues := stripTrailingComma (jsTrim r.defaultValues)
  , fields := joinFields r.fieldsList
  , interfaces := r.interfaces
  , zodSchema := r.zodSchema }

/-- The faithful fallible `generateBodyReplacements`: a `TypeError` thrown
during the traversal aborts the call before finalization and propagates to the
caller. -/
def generateBodyReplacementsE (vt : List (String × String)) (bodyObject : Entries) :
    Except String BodyReplacements :=
  match processEntriesE vt bodyObject "" emptyRepl with
  | .error e => .error e
  | .ok r =>
    .ok
      { formItems := r.formItems
      , types := r.types
      , defaultValues := stripTrailingComma (jsTrim r.defaultValues)
      , fields := joinFields r.fieldsList
      , interfaces := r.interfaces
      , zodSchema := r.zodSchema }

/-- The four accepted spellings of a body placeholder for accumulator key `k`,
given as the text between the surrounding double braces, in source order. -/
def keySpellings (k : String) : List String :=
  ["body:" ++ k, "body: " ++ k, " body:" ++ k ++ " ", " body: " ++ k ++ " "]

/-- Replace all four spellings of the body placeholder for key `k` by `v`. -/
def replaceKeySpellings (content k v : String) : String :=
  (keySpellings k).foldl (fun c p => jsReplace c ("\x7b\x7b" ++ p ++ "\x7d\x7d") v) content

/-- Model of `Generator.replaceBodyPlaceholders`: the six accumulator keys in
record insertion order, four spellings each, replaced sequentially. -/
def replaceBodyPlaceholders (content : String) (r : BodyReplacements) : String :=
  replaceKeySpellings (replaceKeySpellings (replaceKeySpellings (replaceKeySpellings
    (replaceKeySpellings (replaceKeySpellings content
    "formItems" r.formItems)
    "types" r.types)
    "defaultValues" r.defaultValues)
    "fields" r.fields)
    "interfaces" r.interfaces)
    "zodSchema" r.zodSchema

/-- The 24 pattern/replacement pairs of `replaceBodyPlaceholders`, in the order
the source applies them. -/
def bodyPairs (r : BodyReplacements) : List (String × String) :=
  (keySpellings "formItems").map (fun p => (p, r.formItems))
    ++ (keySpellings "types").map (fun p => (p, r.types))
    ++ (keySpellings "defaultValues").map (fun p => (p, r.defaultValues))
    ++ (keySpellings "fields").map (fun p => (p, r.fields))
    ++ (keySpellings "interfaces").map (fun p => (p, r.interfaces))
    ++ (keySpellings "zodSchema").map (fun p => (p, r.zodSchema))

/-- Outcome of a generation run, mirroring the `GenerationResult` interface. -/
structure GenerationResult where
  success : Bool
  files : List String
  errors : List String
  warnings : List String
deriving DecidableEq

/-- Abstracted outcome of processing one template file inside the file loop of
`Generator.generate`: either the file is processed and its relative path pushed
onto `result.files`, or some step of its pipeline throws with a message. -/
inductive FileOutcome where
  | ok (processedPath : String)
  | failure (msg : String)

/-- The per-file loop of `Generator.generate`: a successful file is appended to
`result.files`; a thrown error propagates to the single top-level `catch`,
which sets `success := false` and pushes exactly one error message. -/
def runFilesLoop : List FileOutcome → GenerationResult → GenerationResult
  | [], res => res
  | .ok p :: rest, res => runFilesLoop rest { res with files := res.files ++ [p] }
  | .failure m :: _, res => { res with success := false, errors := res.errors ++ [m] }

/-- Model of `Generator.generate`: an optional pre-loop failure (missing
template, missing template path, a throw while building the body replacements)
short-circuits with one error and no files; otherwise the file loop runs from
the fresh success result. -/
def generateModel : Option String → List FileOutcome → GenerationResult
  | some m, _ => { success := false, files := [], errors := [m], warnings := [] }
  | none, steps => runFilesLoop steps { success := true, files := [], errors := [], warnings := [] }

/-- Decomposition of a text into literal segments and double-brace placeholder
tokens, used to state what global sequential replacement does piecewise. -/
inductive Piece where
  | lit (s : String)
  | ph (s : String)
deriving DecidableEq

/-- Characters of one piece; a placeholder `ph s` renders as the token
delimited by double braces. -/
def pieceD : Piece → List Char
  | .lit s => s.data
  | .ph s => '\x7b' :: '\x7b' :: (s.data ++ ['\x7d', '\x7d'])

/-- Characters of a piece list. -/
def renderD : List Piece → List Char
  | [] => []
  | p :: ps => pieceD p ++ renderD ps

/-- The text a piece list denotes. -/
def render (ps : List Piece) : String := ⟨renderD ps⟩

/-- No opening brace among the characters. -/
def noLB (l : List Char) : Bool := l.all (fun c => c != '\x7b')

/-- No brace of either kind among the characters. -/
def braceFreeL (l : List Char) : Bool := l.all (fun c => c != '\x7b' && c != '\x7d')

/-- No dollar sign among the characters. -/
def noDollarL (l : List Char) : Bool := l.all (fun c => c != '$')

/-- A replacement text is inserted verbatim by `GetSubstitution` exactly when
it contains no dollar sign. -/
def dollarFree (s : String) : Bool := noDollarL s.data

/-- A literal segment is well formed when it contains no opening brace. -/
def litOK (s : String) : Bool := noLB s.data

/-- A placeholder name is well formed when it contains no brace. -/
def phOK (s : String) : Bool := braceFreeL s.data

/-- Well-formedness of one piece. -/
def pieceOK : Piece → Bool
  | .lit s => litOK s
  | .ph s => phOK s

/-- Well-formedness of a piece list. -/
def piecesOK (ps : List Piece) : Bool := ps.all pieceOK

/-- Piecewise effect of replacing the placeholder named `p` by `rep`. -/
def substOne (p rep : String) : Piece → Piece
  | .ph q => if q = p then .lit rep else .ph q
  | .lit s => .lit s

/-- Piecewise effect of a sequence of placeholder replacements. -/
def substList (prs : List (String × String)) (pc : Piece) : Piece :=
  prs.foldl (fun x pr => substOne pr.1 pr.2 x) pc

/-- Scenario B body object. -/
def scenarioB : Entries :=
  .cons "name" (.str "input")
    (.cons "address"
      (.obj (.cons "city" (.str "input") (.cons "country" (.str "select") .nil))) .nil)

theorem rappend_assoc (a b c : Repl) : rappend (rappend a b) c = rappend a (rappend b c) := by
  simp [rappend, String.append_assoc, List.append_assoc]

theorem rappend_empty_left (a : Repl) : rappend emptyRepl a = a := by
  simp [rappend, emptyRepl, String.empty_append]

theorem rappend_empty_right (a : Repl) : rappend a emptyRepl = a := by
  simp [rappend, emptyRepl, String.append_empty]

mutual
theorem processField_delta (vt : List (String × String)) (key : String) (value : BodyValue)
    (pfx : String) (acc : Repl) :
    processField vt key value pfx acc
      = rappend acc (processField vt key value pfx emptyRepl) := by
  cases value with
  | obj es =>
    rw [processField, processField]
    rw [processEntries_delta vt es (fullPathOf pfx key)]
    rw [processEntries_delta vt es (fullPathOf pfx key)
      { formItems := emptyRepl.formItems
      , types := emptyRepl.types ++ "  " ++ key ++ ": " ++ capitalize key ++ ";\n"
      , defaultValues := emptyRepl.defaultValues ++ "  " ++ key ++ ": "
          ++ generateNestedDefaults es ++ ",\n"
      , fieldsList := emptyRepl.fieldsList
      , interfaces := emptyRepl.interfaces ++ "export interface " ++ capitalize key
          ++ " \x7b\n" ++ interfaceMembers es ++ "\x7d\n\n"
      , zodSchema := emptyRepl.zodSchema ++ "  " ++ key ++ ": z.object("
          ++ generateNestedZodSchema es ++ "),\n" }]
    rw [← rappend_assoc]
    congr 1
    simp [rappend, emptyRepl, String.append_assoc]
  | str s =>
    simp only [processField]
    by_cases hp : pfx = "" <;> simp [rappend, emptyRepl, String.append_assoc, hp]
  | num n =>
    simp only [processField]
    by_cases hp : pfx = "" <;> simp [rappend, emptyRepl, String.append_assoc, hp]
  | bool b =>
    simp only [processField]
    by_cases hp : pfx = "" <;> simp [rappend, emptyRepl, String.append_assoc, hp]
  | null =>
    simp only [processField]
    by_cases hp : pfx = "" <;> simp [rappend, emptyRepl, String.append_assoc, hp]
  | arr xs =>
    simp only [processField]
    by_cases hp : pfx = "" <;> simp [rappend, emptyRepl, String.append_assoc, hp]
theorem processEntries_delta (vt : List (String × String)) (es : Entries) (pfx : String)
    (acc : Repl) :
    processEntries vt es pfx acc = rappend acc (processEntries vt es pfx emptyRepl) := by
  cases es with
  | nil => rw [processEntries, processEntries, rappend_empty_right]
  | cons k v rest =>
    rw [processEntries, processEntries]
    rw [processEntries_delta vt rest pfx (processField vt k v pfx acc)]
    rw [processEntries_delta vt rest pfx (processField vt k v pfx emptyRepl)]
    rw [processField_delta vt k v pfx acc]
    rw [rappend_assoc]
end

theorem processEntries_entriesDelta (vt : List (String × String)) (pfx : String)
    (es : Entries) (acc : Repl) :
    processEntries vt es pfx acc = rappend acc (entriesDelta vt pfx es) := by
  cases es with
  | nil => rw [processEntries, entriesDelta, rappend_empty_right]
  | cons k v rest =>
    rw [processEntries, entriesDelta, processEntries_entriesDelta vt pfx rest,
      processField_delta, rappend_assoc]

theorem processEntries_eapp (vt : List (String × String)) (pfx : String)
    (a b : Entries) (acc : Repl) :
    processEntries vt (eapp a b) pfx acc
      = processEntries vt b pfx (processEntries vt a pfx acc) := by
  cases a with
  | nil => rw [eapp, processEntries]
  | cons k v rest => rw [eapp, processEntries, processEntries, processEntries_eapp vt pfx rest]

theorem entriesDefaults_eapp (a b : Entries) :
    entriesDefaults (eapp a b) = entriesDefaults a ++ entriesDefaults b := by
  cases a with
  | nil => rw [eapp, entriesDefaults, String.empty_append]
  | cons k v rest =>
    rw [eapp, entriesDefaults, entriesDefaults, entriesDefaults_eapp rest]
    simp [String.append_assoc]

theorem interfaceMembers_eapp (a b : Entries) :
    interfaceMembers (eapp a b) = interfaceMembers a ++ interfaceMembers b := by
  cases a with
  | nil => rw [eapp, interfaceMembers, String.empty_append]
  | cons k v rest =>
    rw [eapp, interfaceMembers, interfaceMembers, interfaceMembers_eapp rest]
    simp [String.append_assoc]

theorem processFieldE_leaf (vt : List (String × String)) (key pfx : String) (acc : Repl)
    (v : BodyValue) (hleaf : isGroupVal v = false)
    (hsafe : lookupTemplate vt (jsToString v) ≠ .protoFound) :
    processFieldE vt key v pfx acc = .ok (processField vt key v pfx acc) := by
  cases v with
  | obj es => simp [isGroupVal] at hleaf
  | str s =>
    cases hl : lookupTemplate vt (jsToString (BodyValue.str s)) with
    | found t => simp [processFieldE, processField, hl]
    | protoFound => exact absurd hl hsafe
    | missing => simp [processFieldE, processField, hl]
  | num n =>
    cases hl : lookupTemplate vt (jsToString (BodyValue.num n)) with
    | found t => simp [processFieldE, processField, hl]
    | protoFound => exact absurd hl hsafe
    | missing => simp [processFieldE, processField, hl]
  | bool b =>
    cases hl : lookupTemplate vt (jsToString (BodyValue.bool b)) with
    | found t => simp [processFieldE, processField, hl]
    | protoFound => exact absurd hl hsafe
    | missing => simp [processFieldE, processField, hl]
  | null =>
    cases hl : lookupTemplate vt (jsToString BodyValue.null) with
    | found t => simp [processFieldE, processField, hl]
    | protoFound => exact absurd hl hsafe
    | missing => simp [processFieldE, processField, hl]
  | arr xs =>
    cases hl : lookupTemplate vt (jsToString (BodyValue.arr xs)) with
    | found t => simp [processFieldE, processField, hl]
    | protoFound => exact absurd hl hsafe
    | missing => simp [processFieldE, processField, hl]

mutual
theorem processFieldE_ok (vt : List (String × String)) (key : String) (value : BodyValue)
    (pfx : String) (acc : Repl) (h : fieldThrows vt value = false) :
    processFieldE vt key value pfx acc = .ok (processField vt key value pfx acc) := by
  cases value with
  | obj es =>
    rw [processFieldE, processField]
    exact processEntriesE_ok vt es (fullPathOf pfx key) _
      (by simpa [fieldThrows] using h)
  | str s =>
    exact processFieldE_leaf vt key pfx acc (BodyValue.str s) rfl
      (fun hl => by simp [fieldThrows, hl] at h)
  | num n =>
    exact processFieldE_leaf vt key pfx acc (BodyValue.num n) rfl
      (fun hl => by simp [fieldThrows, hl] at h)
  | bool b =>
    exact processFieldE_leaf vt key pfx acc (BodyValue.bool b) rfl
      (fun hl => by simp [fieldThrows, hl] at h)
  | null =>
    exact processFieldE_leaf vt key pfx acc BodyValue.null rfl
      (fun hl => by simp [fieldThrows, hl] at h)
  | arr xs =>
    exact processFieldE_leaf vt key pfx acc (BodyValue.arr xs) rfl
      (fun hl => by simp [fieldThrows, hl] at h)
theorem processEntriesE_ok (vt : List (String × String)) (es : Entries) (pfx : String)
    (acc : Repl) (h : entriesThrow vt es = false) :
    processEntriesE vt es pfx acc = .ok (processEntries vt es pfx acc) := by
  cases es with
  | nil => rfl
  | cons k v rest =>
    rw [processEntriesE, processEntries]
    simp only [entriesThrow, Bool.or_eq_false_iff] at h
    rw [processFieldE_ok vt k v pfx acc h.1]
    exact processEntriesE_ok vt rest pfx _ h.2
end

theorem generateBodyReplacementsE_ok (vt : List (String × String)) (body : Entries)
    (h : entriesThrow vt body = false) :
    generateBodyReplacementsE vt body = .ok (generateBodyReplacements vt body) := by
  rw [generateBodyReplacementsE, processEntriesE_ok vt body "" emptyRepl h]
  rfl

theorem replaceGo_fuel (pat rep : List Char) (f1 f2 : Nat) (pre s : List Char)
    (h1 : s.length ≤ f1) (h2 : s.length ≤ f2) :
    replaceGo pat rep f1 pre s = replaceGo pat rep f2 pre s := by
  induction f1 generalizing f2 pre s with
  | zero =>
    have hs : s = [] := List.eq_nil_of_length_eq_zero (Nat.le_zero.mp h1)
    subst hs
    simp only [replaceGo]
  | succ f ih =>
    cases s with
    | nil => simp only [replaceGo]
    | cons c cs =>
      cases f2 with
      | zero => simp at h2
      | succ f2n =>
        simp only [replaceGo]
        by_cases hc : (!pat.isEmpty && isPrefixL pat (c :: cs)) = true
        · rw [if_pos hc, if_pos hc]
          have hl1 : (List.drop (pat.length - 1) cs).length ≤ f := by
            simp only [List.length_drop]
            simp only [List.length_cons] at h1
            omega
          have hl2 : (List.drop (pat.length - 1) cs).length ≤ f2n := by
            simp only [List.length_drop]
            simp only [List.length_cons] at h2
            omega
          exact congrArg (getSubstitution pat pre (List.drop (pat.length - 1) cs) rep ++ ·)
            (ih f2n (pre ++ pat) _ hl1 hl2)
        · rw [if_neg hc, if_neg hc]
          have hl1 : cs.length ≤ f := by simp only [List.length_cons] at h1; omega
          have hl2 : cs.length ≤ f2n := by simp only [List.length_cons] at h2; omega
          exact congrArg (c :: ·) (ih f2n (pre ++ [c]) cs hl1 hl2)

theorem replaceCore_cons (pat rep pre : List Char) (c : Char) (cs : List Char) :
    replaceCore pat rep pre (c :: cs)
      = if !pat.isEmpty && isPrefixL pat (c :: cs) then
          getSubstitution pat pre (List.drop (pat.length - 1) cs) rep
            ++ replaceCore pat rep (pre ++ pat) (List.drop (pat.length - 1) cs)
        else c :: replaceCore pat rep (pre ++ [c]) cs := by
  show replaceGo pat rep (c :: cs).length pre (c :: cs) = _
  simp only [List.length_cons]
  rw [replaceGo]
  by_cases hc : (!pat.isEmpty && isPrefixL pat (c :: cs)) = true
  · rw [if_pos hc, if_pos hc]
    exact congrArg (getSubstitution pat pre (List.drop (pat.length - 1) cs) rep ++ ·)
      (replaceGo_fuel pat rep cs.length _ _ _
        (by simp only [List.length_drop]; omega) (le_refl _))
  · rw [if_neg hc, if_neg hc]
    rfl

theorem isPrefixL_append_self (a b : List Char) : isPrefixL a (a ++ b) = true := by
  induction a with
  | nil => rfl
  | cons x xs ih => simp [isPrefixL, ih]

theorem replaceCore_matchHead (pat rep pre r : List Char) (h : pat ≠ []) :
    replaceCore pat rep pre (pat ++ r)
      = getSubstitution pat pre r rep ++ replaceCore pat rep (pre ++ pat) r := by
  cases pat with
  | nil => exact absurd rfl h
  | cons p ps =>
    rw [List.cons_append, replaceCore_cons]
    have hc : (!(p :: ps).isEmpty && isPrefixL (p :: ps) (p :: (ps ++ r))) = true := by
      simp [isPrefixL, isPrefixL_append_self]
    rw [if_pos hc]
    have hdrop : List.drop ((p :: ps).length - 1) (ps ++ r) = r := by
      have hlen : (p :: ps).length - 1 = ps.length := by simp
      rw [hlen, List.drop_left]
    rw [hdrop]

theorem replaceCore_skip (pat rep pre a r : List Char)
    (h : ∀ a1 a2, a = a1 ++ a2 → a2 ≠ [] → isPrefixL pat (a2 ++ r) = false) :
    replaceCore pat rep pre (a ++ r) = a ++ replaceCore pat rep (pre ++ a) r := by
  induction a generalizing pre with
  | nil => simp
  | cons c cs ih =>
    rw [List.cons_append, replaceCore_cons]
    have hfalse : isPrefixL pat (c :: (cs ++ r)) = false := by
      have := h [] (c :: cs) rfl (by simp)
      rwa [List.cons_append] at this
    rw [hfalse]
    simp only [Bool.and_false, if_false]
    rw [List.cons_append]
    have harr : pre ++ c :: cs = (pre ++ [c]) ++ cs := by simp
    rw [harr]
    exact congrArg (c :: ·)
      (ih (pre ++ [c]) (fun a1 a2 he hne => h (c :: a1) a2 (by rw [he]; rfl) hne))

theorem getSubstitution_noDollar (matched before after : List Char) :
    ∀ rep, rep.all (fun c => c != '$') = true →
      getSubstitution matched before after rep = rep := by
  intro rep
  induction rep with
  | nil => intro _; rfl
  | cons c rest ih =>
    intro h
    simp only [List.all_cons, Bool.and_eq_true, bne_iff_ne] at h
    rw [getSubstitution.eq_def]
    simp [h.1, ih h.2]

theorem isPrefixL_token_key (p q r : List Char)
    (hp : braceFreeL p = true) (hq : braceFreeL q = true)
    (h : isPrefixL (p ++ ['\x7d', '\x7d']) (q ++ '\x7d' :: '\x7d' :: r) = true) : p = q := by
  induction p generalizing q with
  | nil =>
    cases q with
    | nil => rfl
    | cons d qs =>
      exfalso
      simp only [braceFreeL, List.all_cons, Bool.and_eq_true, bne_iff_ne] at hq
      simp only [List.nil_append, List.cons_append, isPrefixL, Bool.and_eq_true,
        beq_iff_eq] at h
      exact hq.1.2 h.1.symm
  | cons a ps ih =>
    simp only [braceFreeL, List.all_cons, Bool.and_eq_true, bne_iff_ne] at hp
    cases q with
    | nil =>
      exfalso
      simp only [List.cons_append, List.nil_append, isPrefixL, Bool.and_eq_true,
        beq_iff_eq] at h
      exact hp.1.2 h.1
    | cons d qs =>
      simp only [braceFreeL, List.all_cons, Bool.and_eq_true, bne_iff_ne] at hq
      simp only [List.cons_append, isPrefixL, Bool.and_eq_true, beq_iff_eq] at h
      have := ih qs (by simpa [braceFreeL] using hp.2) (by simpa [braceFreeL] using hq.2) h.2
      rw [h.1, this]

theorem noMatch_lit (p s r : List Char) (hs : noLB s = true) :
    ∀ a1 a2, s = a1 ++ a2 → a2 ≠ [] →
      isPrefixL ('\x7b' :: '\x7b' :: p) (a2 ++ r) = false := by
  intro a1 a2 he hne
  cases a2 with
  | nil => exact absurd rfl hne
  | cons c t =>
    have hc : c ≠ '\x7b' := by
      have hmem : c ∈ s := by
        rw [he]; exact List.mem_append.mpr (Or.inr (List.mem_cons_self c t))
      have := List.all_eq_true.mp hs c hmem
      simpa [bne_iff_ne] using this
    have hb : ('\x7b' == c) = false := by
      rw [beq_eq_false_iff_ne]; exact fun hcontra => hc hcontra.symm
    simp [isPrefixL, List.cons_append, hb]

theorem noMatch_ph (p q r : List Char)
    (hp : braceFreeL p = true) (hq : braceFreeL q = true) (hne : q ≠ p) :
    ∀ a1 a2, ('\x7b' :: '\x7b' :: (q ++ ['\x7d', '\x7d'])) = a1 ++ a2 → a2 ≠ [] →
      isPrefixL ('\x7b' :: '\x7b' :: (p ++ ['\x7d', '\x7d'])) (a2 ++ r) = false := by
  intro a1 a2 he hne2
  cases a1 with
  | nil =>
    have ha2 : a2 = '\x7b' :: '\x7b' :: (q ++ ['\x7d', '\x7d']) := by simpa using he.symm
    subst ha2
    simp only [List.cons_append, isPrefixL, beq_self_eq_true, Bool.true_and]
    cases hbool : isPrefixL (p ++ ['\x7d', '\x7d']) ((q ++ ['\x7d', '\x7d']) ++ r) with
    | false => rfl
    | true =>
      rw [List.append_assoc] at hbool
      exact absurd (isPrefixL_token_key p q r hp hq hbool) (fun hpq => hne hpq.symm)
  | cons x a1' =>
    injection he with hx he2
    cases a1' with
    | nil =>
      have ha2 : a2 = '\x7b' :: (q ++ ['\x7d', '\x7d']) := by simpa using he2.symm
      subst ha2
      simp only [List.cons_append, isPrefixL, beq_self_eq_true, Bool.true_and]
      cases q with
      | nil => simp [isPrefixL]
      | cons d qs =>
        simp only [braceFreeL, List.all_cons, Bool.and_eq_true, bne_iff_ne] at hq
        have hb : ('\x7b' == d) = false := by
          rw [beq_eq_false_iff_ne]; exact fun hcontra => hq.1.1 hcontra.symm
        simp [isPrefixL, List.cons_append, hb]
    | cons y a1'' =>
      injection he2 with hy he3
      rcases List.append_eq_append_iff.mp he3 with ⟨w, hw1, hw2⟩ | ⟨w, hw1, hw2⟩
      · -- a1'' = q ++ w and ['}','}'] = w ++ a2 : a2 is a nonempty suffix of the two braces
        have hw2s := hw2.symm
        cases w with
        | nil =>
          have ha2 : a2 = ['\x7d', '\x7d'] := by simpa using hw2s
          subst ha2
          simp [isPrefixL, List.cons_append]
        | cons w1 ws =>
          injection hw2s with hw1c hw2c
          cases ws with
          | nil =>
            have ha2 : a2 = ['\x7d'] := by simpa using hw2c
            subst ha2
            simp [isPrefixL, List.cons_append]
          | cons w2 ws2 =>
            injection hw2c with hw2c1 hw2c2
            exact absurd (List.append_eq_nil.mp hw2c2).2 hne2
      · -- q = a1'' ++ w and a2 = w ++ ['}','}']
        cases w with
        | nil =>
          have ha2 : a2 = ['\x7d', '\x7d'] := by simpa using hw2
          subst ha2
          simp [isPrefixL, List.cons_append]
        | cons d ws =>
          have hd : d ≠ '\x7b' := by
            have hdq : d ∈ q := by
              rw [hw1]; exact List.mem_append.mpr (Or.inr (List.mem_cons_self _ _))
            have := List.all_eq_true.mp hq d hdq
            simp only [bne_iff_ne, Bool.and_eq_true] at this
            exact this.1
          subst hw2
          have hb : ('\x7b' == d) = false := by
            rw [beq_eq_false_iff_ne]; exact fun hcontra => hd hcontra.symm
          simp [isPrefixL, List.cons_append, hb]

theorem string_eq_of_data {a b : String} (h : a.data = b.data) : a = b := String.ext h

theorem piecesOK_cons (pc : Piece) (rest : List Piece) :
    piecesOK (pc :: rest) = (pieceOK pc && piecesOK rest) := by
  simp [piecesOK]

theorem piecesOK_map_substOne (p rep : String) (ps : List Piece)
    (hps : piecesOK ps = true) (hrep : litOK rep = true) :
    piecesOK (ps.map (substOne p rep)) = true := by
  induction ps with
  | nil => rfl
  | cons pc rest ih =>
    rw [List.map_cons, piecesOK_cons]
    rw [piecesOK_cons, Bool.and_eq_true] at hps
    rw [Bool.and_eq_true]
    refine ⟨?_, ih hps.2⟩
    cases pc with
    | lit s => exact hps.1
    | ph q =>
      by_cases hq : q = p
      · simp [substOne, hq, pieceOK, hrep]
      · simp [substOne, hq]; exact hps.1

theorem replaceCore_renderD (p rep : String) (ps : List Piece)
    (hp : phOK p = true) (hrep : dollarFree rep = true) (hps : piecesOK ps = true) :
    ∀ pre, replaceCore ('\x7b' :: '\x7b' :: (p.data ++ ['\x7d', '\x7d'])) rep.data pre
        (renderD ps)
      = renderD (ps.map (substOne p rep)) := by
  induction ps with
  | nil => intro pre; rfl
  | cons pc rest ih =>
    intro pre
    rw [piecesOK_cons, Bool.and_eq_true] at hps
    cases pc with
    | lit s =>
      rw [renderD, List.map_cons]
      simp only [pieceD]
      rw [replaceCore_skip _ _ _ _ _
        (noMatch_lit (p.data ++ ['\x7d', '\x7d']) s.data (renderD rest) hps.1)]
      rw [ih hps.2]
      rfl
    | ph q =>
      by_cases hq : q = p
      · subst hq
        rw [renderD, List.map_cons]
        show replaceCore ('\x7b' :: '\x7b' :: (q.data ++ ['\x7d', '\x7d'])) rep.data pre
          (('\x7b' :: '\x7b' :: (q.data ++ ['\x7d', '\x7d'])) ++ renderD rest) = _
        rw [replaceCore_matchHead _ _ _ _ (by simp)]
        rw [getSubstitution_noDollar _ _ _ _ hrep]
        rw [ih hps.2]
        simp [substOne, renderD, pieceD]
      · have hqd : q.data ≠ p.data := fun hdata => hq (string_eq_of_data hdata)
        rw [renderD, List.map_cons]
        show replaceCore ('\x7b' :: '\x7b' :: (p.data ++ ['\x7d', '\x7d'])) rep.data pre
          (('\x7b' :: '\x7b' :: (q.data ++ ['\x7d', '\x7d'])) ++ renderD rest) = _
        rw [replaceCore_skip _ _ _ _ _
          (noMatch_ph p.data q.data (renderD rest) hp hps.1 hqd)]
        rw [ih hps.2]
        simp [substOne, hq, renderD, pieceD]

theorem jsReplace_render (p rep : String) (ps : List Piece)
    (hp : phOK p = true) (hrep : dollarFree rep = true) (hps : piecesOK ps = true) :
    jsReplace (render ps) ("\x7b\x7b" ++ p ++ "\x7d\x7d") rep
      = render (ps.map (substOne p rep)) := by
  have hdata : ("\x7b\x7b" ++ p ++ "\x7d\x7d").data
      = '\x7b' :: '\x7b' :: (p.data ++ ['\x7d', '\x7d']) := by
    have h1 : ("\x7b\x7b" : String).data = ['\x7b', '\x7b'] := rfl
    have h2 : ("\x7d\x7d" : String).data = ['\x7d', '\x7d'] := rfl
    simp [String.data_append, h1, h2]
  show (⟨replaceL ("\x7b\x7b" ++ p ++ "\x7d\x7d").data rep.data (renderD ps)⟩ : String) = _
  rw [hdata]
  show (⟨replaceCore _ _ [] (renderD ps)⟩ : String) = _
  rw [replaceCore_renderD p rep ps hp hrep hps []]
  rfl

theorem jsReplace_fold_render (prs : List (String × String)) (ps : List Piece)
    (hprs : ∀ pr ∈ prs, phOK pr.1 = true ∧ litOK pr.2 = true ∧ dollarFree pr.2 = true)
    (hps : piecesOK ps = true) :
    prs.foldl (fun c pr => jsReplace c ("\x7b\x7b" ++ pr.1 ++ "\x7d\x7d") pr.2) (render ps)
      = render (ps.map (substList prs)) := by
  induction prs generalizing ps with
  | nil =>
    simp only [List.foldl_nil]
    have hid : substList ([] : List (String × String)) = id := funext (fun pc => rfl)
    rw [hid, List.map_id]
  | cons pr rest ih =>
    rw [List.foldl_cons]
    rw [jsReplace_render pr.1 pr.2 ps (hprs pr (List.mem_cons_self _ _)).1
      (hprs pr (List.mem_cons_self _ _)).2.2 hps]
    rw [ih (ps.map (substOne pr.1 pr.2))
      (fun x hx => hprs x (List.mem_cons_of_mem _ hx))
      (piecesOK_map_substOne pr.1 pr.2 ps hps (hprs pr (List.mem_cons_self _ _)).2.1)]
    rw [List.map_map]
    rfl

theorem toLower_ne_lb (c : Char) (h : c ≠ '\x7b') : Char.toLower c ≠ '\x7b' := by
  by_cases hc : c.toNat ≥ 65 ∧ c.toNat ≤ 90
  · have he : Char.toLower c = Char.ofNat (c.toNat + 32) := by
      simp [Char.toLower, hc]
    rw [he]
    set m := c.toNat + 32 with hm
    have h1 : 97 ≤ m := by omega
    have h2 : m ≤ 122 := by omega
    interval_cases m <;> decide
  · have he : Char.toLower c = c := by simp [Char.toLower, hc]
    rw [he]; exact h

theorem toUpper_ne_lb (c : Char) (h : c ≠ '\x7b') : Char.toUpper c ≠ '\x7b' := by
  by_cases hc : c.toNat ≥ 97 ∧ c.toNat ≤ 122
  · have he : Char.toUpper c = Char.ofNat (c.toNat - 32) := by
      simp [Char.toUpper, hc]
    rw [he]
    set m := c.toNat - 32 with hm
    have h1 : 65 ≤ m := by omega
    have h2 : m ≤ 90 := by omega
    interval_cases m <;> decide
  · have he : Char.toUpper c = c := by simp [Char.toUpper, hc]
    rw [he]; exact h

theorem noLB_map_toLower (l : List Char) (h : noLB l = true) :
    noLB (l.map Char.toLower) = true := by
  simp only [noLB, List.all_eq_true, bne_iff_ne] at h ⊢
  intro x hx
  rcases List.mem_map.mp hx with ⟨c, hc, rfl⟩
  exact toLower_ne_lb c (h c hc)

theorem noLB_map_toUpper (l : List Char) (h : noLB l = true) :
    noLB (l.map Char.toUpper) = true := by
  simp only [noLB, List.all_eq_true, bne_iff_ne] at h ⊢
  intro x hx
  rcases List.mem_map.mp hx with ⟨c, hc, rfl⟩
  exact toUpper_ne_lb c (h c hc)

theorem noLB_boundarySep (sep : Char) (hsep : sep ≠ '\x7b') (l : List Char)
    (h : noLB l = true) : noLB (boundarySep sep l) = true := by
  cases l with
  | nil => exact h
  | cons a t =>
    cases t with
    | nil => exact h
    | cons b rest =>
      simp only [noLB, List.all_cons, Bool.and_eq_true, bne_iff_ne] at h
      have hrec := noLB_boundarySep sep hsep (b :: rest)
        (by simp only [noLB, List.all_cons, Bool.and_eq_true, bne_iff_ne]; exact h.2)
      rw [boundarySep]
      by_cases hb : (isLowerNum a && isUpperAlpha b) = true
      · rw [if_pos hb]
        simp only [noLB, List.all_cons, Bool.and_eq_true, bne_iff_ne]
        exact ⟨h.1, hsep, by simpa [noLB] using hrec⟩
      · rw [if_neg hb]
        simp only [noLB, List.all_cons, Bool.and_eq_true, bne_iff_ne]
        exact ⟨h.1, by simpa [noLB] using hrec⟩

theorem litOK_capitalize (s : String) (h : litOK s = true) : litOK (capitalize s) = true := by
  rw [capitalize]
  cases hs : s.data with
  | nil => decide
  | cons c cs =>
    rw [litOK, noLB] at h
    rw [hs] at h
    simp only [List.all_cons, Bool.and_eq_true, bne_iff_ne] at h
    simp only [litOK, noLB, List.all_cons, Bool.and_eq_true, bne_iff_ne]
    exact ⟨toUpper_ne_lb c h.1, by simpa [List.all_eq_true, bne_iff_ne] using h.2⟩

theorem litOK_toCamelCase (s : String) (h : litOK s = true) : litOK (toCamelCase s) = true := by
  rw [toCamelCase]
  cases hs : s.data with
  | nil => decide
  | cons c cs =>
    rw [litOK, noLB] at h
    rw [hs] at h
    simp only [List.all_cons, Bool.and_eq_true, bne_iff_ne] at h
    simp only [litOK, noLB, List.all_cons, Bool.and_eq_true, bne_iff_ne]
    exact ⟨toLower_ne_lb c h.1, by simpa [List.all_eq_true, bne_iff_ne] using h.2⟩

theorem litOK_toUpperCase (s : String) (h : litOK s = true) : litOK (toUpperCase s) = true := by
  rw [toUpperCase]
  exact noLB_map_toUpper s.data h

theorem litOK_toKebabCase (s : String) (h : litOK s = true) : litOK (toKebabCase s) = true := by
  rw [toKebabCase]
  exact noLB_map_toLower _ (noLB_boundarySep '-' (by decide) s.data h)

theorem litOK_toSnakeCase (s : String) (h : litOK s = true) : litOK (toSnakeCase s) = true := by
  rw [toSnakeCase]
  exact noLB_map_toLower _ (noLB_boundarySep '_' (by decide) s.data h)

theorem toLower_ne_dollar (c : Char) (h : c ≠ '$') : Char.toLower c ≠ '$' := by
  by_cases hc : c.toNat ≥ 65 ∧ c.toNat ≤ 90
  · have he : Char.toLower c = Char.ofNat (c.toNat + 32) := by
      simp [Char.toLower, hc]
    rw [he]
    set m := c.toNat + 32 with hm
    have h1 : 97 ≤ m := by omega
    have h2 : m ≤ 122 := by omega
    interval_cases m <;> decide
  · have he : Char.toLower c = c := by simp [Char.toLower, hc]
    rw [he]; exact h

theorem toUpper_ne_dollar (c : Char) (h : c ≠ '$') : Char.toUpper c ≠ '$' := by
  by_cases hc : c.toNat ≥ 97 ∧ c.toNat ≤ 122
  · have he : Char.toUpper c = Char.ofNat (c.toNat - 32) := by
      simp [Char.toUpper, hc]
    rw [he]
    set m := c.toNat - 32 with hm
    have h1 : 65 ≤ m := by omega
    have h2 : m ≤ 90 := by omega
    interval_cases m <;> decide
  · have he : Char.toUpper c = c := by simp [Char.toUpper, hc]
    rw [he]; exact h

theorem noDollar_map_toLower (l : List Char) (h : noDollarL l = true) :
    noDollarL (l.map Char.toLower) = true := by
  simp only [noDollarL, List.all_eq_true, bne_iff_ne] at h ⊢
  intro x hx
  rcases List.mem_map.mp hx with ⟨c, hc, rfl⟩
  exact toLower_ne_dollar c (h c hc)

theorem noDollar_map_toUpper (l : List Char) (h : noDollarL l = true) :
    noDollarL (l.map Char.toUpper) = true := by
  simp only [noDollarL, List.all_eq_true, bne_iff_ne] at h ⊢
  intro x hx
  rcases List.mem_map.mp hx with ⟨c, hc, rfl⟩
  exact toUpper_ne_dollar c (h c hc)

theorem noDollar_boundarySep (sep : Char) (hsep : sep ≠ '$') (l : List Char)
    (h : noDollarL l = true) : noDollarL (boundarySep sep l) = true := by
  cases l with
  | nil => exact h
  | cons a t =>
    cases t with
    | nil => exact h
    | cons b rest =>
      simp only [noDollarL, List.all_cons, Bool.and_eq_true, bne_iff_ne] at h
      have hrec := noDollar_boundarySep sep hsep (b :: rest)
        (by simp only [noDollarL, List.all_cons, Bool.and_eq_true, bne_iff_ne]; exact h.2)
      rw [boundarySep]
      by_cases hb : (isLowerNum a && isUpperAlpha b) = true
      · rw [if_pos hb]
        simp only [noDollarL, List.all_cons, Bool.and_eq_true, bne_iff_ne]
        exact ⟨h.1, hsep, by simpa [noDollarL] using hrec⟩
      · rw [if_neg hb]
        simp only [noDollarL, List.all_cons, Bool.and_eq_true, bne_iff_ne]
        exact ⟨h.1, by simpa [noDollarL] using hrec⟩

theorem dollarFree_capitalize (s : String) (h : dollarFree s = true) :
    dollarFree (capitalize s) = true := by
  rw [capitalize]
  cases hs : s.data with
  | nil => decide
  | cons c cs =>
    rw [dollarFree, noDollarL] at h
    rw [hs] at h
    simp only [List.all_cons, Bool.and_eq_true, bne_iff_ne] at h
    simp only [dollarFree, noDollarL, List.all_cons, Bool.and_eq_true, bne_iff_ne]
    exact ⟨toUpper_ne_dollar c h.1, by simpa [List.all_eq_true, bne_iff_ne] using h.2⟩

theorem dollarFree_toCamelCase (s : String) (h : dollarFree s = true) :
    dollarFree (toCamelCase s) = true := by
  rw [toCamelCase]
  cases hs : s.data with
  | nil => decide
  | cons c cs =>
    rw [dollarFree, noDollarL] at h
    rw [hs] at h
    simp only [List.all_cons, Bool.and_eq_true, bne_iff_ne] at h
    simp only [dollarFree, noDollarL, List.all_cons, Bool.and_eq_true, bne_iff_ne]
    exact ⟨toLower_ne_dollar c h.1, by simpa [List.all_eq_true, bne_iff_ne] using h.2⟩

theorem dollarFree_toUpperCase (s : String) (h : dollarFree s = true) :
    dollarFree (toUpperCase s) = true := by
  rw [toUpperCase]
  exact noDollar_map_toUpper s.data h

theorem dollarFree_toKebabCase (s : String) (h : dollarFree s = true) :
    dollarFree (toKebabCase s) = true := by
  rw [toKebabCase]
  exact noDollar_map_toLower _ (noDollar_boundarySep '-' (by decide) s.data h)

theorem dollarFree_toSnakeCase (s : String) (h : dollarFree s = true) :
    dollarFree (toSnakeCase s) = true := by
  rw [toSnakeCase]
  exact noDollar_map_toLower _ (noDollar_boundarySep '_' (by decide) s.data h)

theorem modulePairs_ok (m : String) (hm : litOK m = true) (hdm : dollarFree m = true) :
    ∀ pr ∈ modulePairs m, phOK pr.1 = true ∧ litOK pr.2 = true ∧ dollarFree pr.2 = true := by
  intro pr hpr
  simp only [modulePairs, List.mem_cons, List.mem_singleton] at hpr
  rcases hpr with rfl | rfl | rfl | rfl | rfl | rfl | rfl | h
  · exact ⟨(by decide : phOK "name" = true), hm, hdm⟩
  · exact ⟨(by decide : phOK "Name" = true), litOK_capitalize m hm, dollarFree_capitalize m hdm⟩
  · exact ⟨(by decide : phOK "NAME" = true), litOK_toUpperCase m hm,
      dollarFree_toUpperCase m hdm⟩
  · exact ⟨(by decide : phOK "name-kebab" = true), litOK_toKebabCase m hm,
      dollarFree_toKebabCase m hdm⟩
  · exact ⟨(by decide : phOK "name_snake" = true), litOK_toSnakeCase m hm,
      dollarFree_toSnakeCase m hdm⟩
  · exact ⟨(by decide : phOK "name.camel" = true), litOK_toCamelCase m hm,
      dollarFree_toCamelCase m hdm⟩
  · exact ⟨(by decide : phOK "name.pascal" = true), litOK_capitalize m hm,
      dollarFree_capitalize m hdm⟩
  · simp at h

theorem spelling_pairs_ok (k v : String) (hk : ∀ p ∈ keySpellings k, phOK p = true)
    (hv : litOK v = true) (hdv : dollarFree v = true) :
    ∀ pr ∈ (keySpellings k).map (fun p => (p, v)),
      phOK pr.1 = true ∧ litOK pr.2 = true ∧ dollarFree pr.2 = true := by
  intro pr hpr
  rcases List.mem_map.mp hpr with ⟨p, hp, rfl⟩
  exact ⟨hk p hp, hv, hdv⟩

theorem bodyPairs_ok (r : BodyReplacements)
    (h1 : litOK r.formItems = true) (h2 : litOK r.types = true)
    (h3 : litOK r.defaultValues = true) (h4 : litOK r.fields = true)
    (h5 : litOK r.interfaces = true) (h6 : litOK r.zodSchema = true)
    (hd1 : dollarFree r.formItems = true) (hd2 : dollarFree r.types = true)
    (hd3 : dollarFree r.defaultValues = true) (hd4 : dollarFree r.fields = true)
    (hd5 : dollarFree r.interfaces = true) (hd6 : dollarFree r.zodSchema = true) :
    ∀ pr ∈ bodyPairs r, phOK pr.1 = true ∧ litOK pr.2 = true ∧ dollarFree pr.2 = true := by
  intro pr hpr
  simp only [bodyPairs, List.mem_append] at hpr
  rcases hpr with ((((h | h) | h) | h) | h) | h
  · exact spelling_pairs_ok _ _ (by decide) h1 hd1 pr h
  · exact spelling_pairs_ok _ _ (by decide) h2 hd2 pr h
  · exact spelling_pairs_ok _ _ (by decide) h3 hd3 pr h
  · exact spelling_pairs_ok _ _ (by decide) h4 hd4 pr h
  · exact spelling_pairs_ok _ _ (by decide) h5 hd5 pr h
  · exact spelling_pairs_ok _ _ (by decide) h6 hd6 pr h

theorem replacePlaceholders_eq_fold (text m : String) :
    replacePlaceholders text m
      = (modulePairs m).foldl
          (fun c pr => jsReplace c ("\x7b\x7b" ++ pr.1 ++ "\x7d\x7d") pr.2) text := rfl

theorem replaceBodyPlaceholders_eq_fold (content : String) (r : BodyReplacements) :
    replaceBodyPlaceholders content r
      = (bodyPairs r).foldl
          (fun c pr => jsReplace c ("\x7b\x7b" ++ pr.1 ++ "\x7d\x7d") pr.2) content := rfl

theorem runFilesLoop_ok_then_failure (done : List String) (m : String)
    (rest : List FileOutcome) (res : GenerationResult) :
    runFilesLoop (done.map FileOutcome.ok ++ FileOutcome.failure m :: rest) res
      = { res with success := false, files := res.files ++ done, errors := res.errors ++ [m] } := by
  induction done generalizing res with
  | nil => simp [runFilesLoop]
  | cons d ds ih =>
    simp only [List.map_cons, List.cons_append]
    rw [runFilesLoop, ih]
    simp [List.append_assoc]

/-- C1 fails as stated.  First, a nested leaf at depth one is not always free
of top-level lines: a root group keyed by the empty string recurses into its
children with an empty path (the empty full path is falsy), so its depth-one
leaf receives top-level `types`/`defaultValues` lines.  Second, a root leaf
does not always produce its two lines: a tag naming an `Object.prototype`
member (here `toString`) makes the lookup return the truthy inherited member
and `template.replace` throw, so the traversal aborts with zero lines. -/
theorem C1_counterexample :
    (generateBodyReplacementsE [] (.cons "" (.obj (.cons "x" (.str "input") .nil)) .nil)
      = .ok (generateBodyReplacements [] (.cons "" (.obj (.cons "x" (.str "input") .nil)) .nil)))
    ∧ containsStr
        (generateBodyReplacements [] (.cons "" (.obj (.cons "x" (.str "input") .nil)) .nil)).types
        "  x: string;\n" = true
    ∧ containsStr
        (generateBodyReplacements []
          (.cons "" (.obj (.cons "x" (.str "input") .nil)) .nil)).defaultValues
        "x: ''" = true
    ∧ processFieldE [("input", "I")] "k" (.str "toString") "" emptyRepl
      = .error "TypeError: template.replace is not a function" :=
  ⟨rfl, by decide, by decide, rfl⟩

/-- C1 (amended): for a leaf whose coerced tag does not find an inherited
`Object.prototype` member the walker does not throw, and then: processed with
an empty prefix it appends exactly one member line to `types` and exactly one
entry to `defaultValues`; processed with a nonempty prefix it appends nothing
to either and is represented inside its parent group's nested default literal
and interface member lines.  `Nested` must be read as `nonempty path`:
children of a root group keyed by the empty string are recursed with an empty
path and are treated like root-level leaves. -/
theorem C1_root_nested_leaf_asymmetry (vt : List (String × String))
    (key tag pfx : String) (acc : Repl) (hpfx : pfx ≠ "")
    (hsafe : lookupTemplate vt tag ≠ .protoFound) :
    (processFieldE vt key (.str tag) "" acc = .ok (processField vt key (.str tag) "" acc)
      ∧ processFieldE vt key (.str tag) pfx acc = .ok (processField vt key (.str tag) pfx acc))
    ∧ ((processField vt key (.str tag) "" acc).types
        = acc.types ++ "  " ++ key ++ ": string;\n"
      ∧ (processField vt key (.str tag) "" acc).defaultValues
        = acc.defaultValues ++ "  " ++ key ++ ": '',\n")
    ∧ ((processField vt key (.str tag) pfx acc).types = acc.types
      ∧ (processField vt key (.str tag) pfx acc).defaultValues = acc.defaultValues)
    ∧ (∀ es1 es2 : Entries,
        entriesDefaults (eapp es1 (.cons key (.str tag) es2))
          = entriesDefaults es1 ++ ("    " ++ key ++ ": '',\n") ++ entriesDefaults es2
        ∧ interfaceMembers (eapp es1 (.cons key (.str tag) es2))
          = interfaceMembers es1 ++ ("  " ++ key ++ ": string;\n") ++ interfaceMembers es2) := by
  have hsafe2 : lookupTemplate vt (jsToString (BodyValue.str tag)) ≠ .protoFound := hsafe
  refine ⟨⟨?_, ?_⟩, ⟨?_, ?_⟩, ⟨?_, ?_⟩, ?_⟩
  · exact processFieldE_leaf vt key "" acc (BodyValue.str tag) rfl hsafe2
  · exact processFieldE_leaf vt key pfx acc (BodyValue.str tag) rfl hsafe2
  · simp [processField]
  · simp [processField]
  · simp [processField, hpfx]
  · simp [processField, hpfx]
  · intro es1 es2
    constructor
    · rw [entriesDefaults_eapp, entriesDefaults]
      apply string_eq_of_data
      simp [defaultsOfVal, String.data_append]
    · rw [interfaceMembers_eapp, interfaceMembers]
      apply string_eq_of_data
      simp [isGroupVal, String.data_append]

theorem C1_witness :
    ("address" : String) ≠ ""
    ∧ lookupTemplate [("input", "I")] "input" ≠ .protoFound
    ∧ (processField [("input", "I")] "city" (.str "input") "address" emptyRepl).defaultValues
        = emptyRepl.defaultValues :=
  ⟨by decide, by decide,
   (C1_root_nested_leaf_asymmetry [("input", "I")] "city" "input" "address" emptyRepl
     (by decide) (by decide)).2.2.1.2⟩

/-- C6: every accumulator receives, in entry order, exactly the concatenation
of the per-field contributions; splitting the entry list splits the traversal. -/
theorem C6_order_preservation (vt : List (String × String)) (pfx : String)
    (es : Entries) (acc : Repl) :
    processEntries vt es pfx acc = rappend acc (entriesDelta vt pfx es)
    ∧ ∀ es1 es2 : Entries,
        processEntries vt (eapp es1 es2) pfx acc
          = processEntries vt es2 pfx (processEntries vt es1 pfx acc) :=
  ⟨processEntries_entriesDelta vt pfx es acc,
   fun es1 es2 => processEntries_eapp vt pfx es1 es2 acc⟩

/-- C7: the replacement record is built from fresh (empty) accumulators, with
`defaultValues` trimmed and comma-stripped exactly once at the end; during
traversal `defaultValues` only ever grows by appending (no trimming happens
mid-traversal). -/
theorem C7_finalization (vt : List (String × String)) (body : Entries) :
    (generateBodyReplacements vt body
      = { formItems := (processEntries vt body "" emptyRepl).formItems
        , types := (processEntries vt body "" emptyRepl).types
        , defaultValues :=
            stripTrailingComma (jsTrim (processEntries vt body "" emptyRepl).defaultValues)
        , fields := joinFields (processEntries vt body "" emptyRepl).fieldsList
        , interfaces := (processEntries vt body "" emptyRepl).interfaces
        , zodSchema := (processEntries vt body "" emptyRepl).zodSchema })
    ∧ ∀ (key : String) (v : BodyValue) (pfx : String) (acc : Repl),
        (processField vt key v pfx acc).defaultValues
          = acc.defaultValues ++ (processField vt key v pfx emptyRepl).defaultValues :=
  ⟨rfl, fun key v pfx acc => by rw [processField_delta]; rfl⟩

/-- C8 (amended): a leaf whose coerced type tag is truly missing — neither an
own key of the template map nor an inherited `Object.prototype` member —
appends nothing to `formItems`, still appends the quoted full path to the
field list, and the expansion raises no error (the fallible walker agrees
with the total one); this covers unknown string tags and those array (or
other non-string) values whose JavaScript string coercion misses the map.
(An array whose coercion does hit a key emits markup, and a tag naming an
`Object.prototype` member throws — see the counterexample.) -/
theorem C8_tolerated_misses (vt : List (String × String)) (key pfx : String)
    (acc : Repl) (v : BodyValue) (hleaf : isGroupVal v = false)
    (hmiss : lookupTemplate vt (jsToString v) = .missing) :
    processFieldE vt key v pfx acc = .ok (processField vt key v pfx acc)
    ∧ (processField vt key v pfx acc).formItems = acc.formItems
    ∧ (processField vt key v pfx acc).fieldsList
        = acc.fieldsList ++ ["'" ++ fullPathOf pfx key ++ "'"] := by
  refine ⟨processFieldE_leaf vt key pfx acc v hleaf (by rw [hmiss]; simp), ?_, ?_⟩
  all_goals cases v with
  | obj es => simp [isGroupVal] at hleaf
  | str s => simp [processField, leafFormItem, hmiss]
  | num n => simp [processField, leafFormItem, hmiss]
  | bool b => simp [processField, leafFormItem, hmiss]
  | null => simp [processField, leafFormItem, hmiss]
  | arr xs => simp [processField, leafFormItem, hmiss]

theorem C8_witness :
    isGroupVal (BodyValue.arr (.econs (.num 1) (.econs (.num 2) .enil))) = false
    ∧ lookupTemplate [("input", "T")]
        (jsToString (BodyValue.arr (.econs (.num 1) (.econs (.num 2) .enil)))) = .missing
    ∧ (processField [("input", "T")] "f"
        (BodyValue.arr (.econs (.num 1) (.econs (.num 2) .enil))) "" emptyRepl).formItems
        = emptyRepl.formItems :=
  ⟨by decide, by decide,
   (C8_tolerated_misses [("input", "T")] "f" "" emptyRepl
     (BodyValue.arr (.econs (.num 1) (.econs (.num 2) .enil)))
     (by decide) (by decide)).2.1⟩

/-- C8 fails as stated.  An array-valued node is not guaranteed to emit
nothing to `formItems`: property lookup coerces the array to a string key, so
`["input"]` coerces to `"input"` and finds the snippet, which is emitted.
And a miss of the map's own keys does not guarantee the absence of an error:
a tag naming an inherited `Object.prototype` member (here `toString`) finds
the truthy inherited function and `template.replace` throws. -/
theorem C8_counterexample :
    (processField [("input", "X")] "f" (BodyValue.arr (.econs (.str "input") .enil))
        "" emptyRepl).formItems = "X\n"
    ∧ ("X\n" : String) ≠ ""
    ∧ List.lookup "toString" [("input", "X")] = none
    ∧ processFieldE [("input", "X")] "f" (.str "toString") "" emptyRepl
      = .error "TypeError: template.replace is not a function" :=
  ⟨by decide, by decide, by decide, rfl⟩

/-- C9 (amended): a pre-loop failure yields one error, no files and
`success = false`; a failure inside the per-file loop is caught at the
top-level boundary and converted to exactly one error string with
`success = false`, but the files processed before the failure remain listed. -/
theorem C9_error_atomicity (m : String) (steps : List FileOutcome)
    (done : List String) (rest : List FileOutcome) :
    generateModel (some m) steps
      = { success := false, files := [], errors := [m], warnings := [] }
    ∧ generateModel none (done.map FileOutcome.ok ++ FileOutcome.failure m :: rest)
      = { success := false, files := done, errors := [m], warnings := [] } := by
  constructor
  · rfl
  · rw [generateModel, runFilesLoop_ok_then_failure]
    simp

/-- C9 fails as stated: a generation run that fails after its first file still
lists that file in `GenerationResult.files`, so partial progress is visible. -/
theorem C9_counterexample :
    generateModel none [FileOutcome.ok "a.ts", FileOutcome.failure "boom"]
      = { success := false, files := ["a.ts"], errors := ["boom"], warnings := [] }
    ∧ ({ success := false, files := ["a.ts"], errors := ["boom"], warnings := [] }
        : GenerationResult).files ≠ [] :=
  ⟨by decide, by decide⟩

/-- C4 fails as stated in two ways.  A token that itself contains a later
placeholder is rewritten again by a later pass: with token
`\x7b\x7bName\x7d\x7dx`, the text `\x7b\x7bname\x7d\x7d` does not become the
token unchanged.  And a token containing a dollar sign is not inserted
verbatim: `String.prototype.replace` interprets `$&` as the matched
placeholder, so token `$&` turns `\x7b\x7bname\x7d\x7d` back into
`\x7b\x7bname\x7d\x7d` rather than into `$&`. -/
theorem C4_counterexample :
    (replacePlaceholders "\x7b\x7bname\x7d\x7d" "\x7b\x7bName\x7d\x7dx"
      = "\x7b\x7bName\x7d\x7dxx"
    ∧ ("\x7b\x7bName\x7d\x7dxx" : String) ≠ "\x7b\x7bName\x7d\x7dx")
    ∧ (replacePlaceholders "\x7b\x7bname\x7d\x7d" "$&" = "\x7b\x7bname\x7d\x7d"
    ∧ ("\x7b\x7bname\x7d\x7d" : String) ≠ "$&") :=
  ⟨⟨by decide, by decide⟩, ⟨by decide, by decide⟩⟩

/-- C4 (amended): for texts decomposing into literal segments without an
opening brace and double-brace tokens with brace-free names, and for a token
with no opening brace and no dollar sign, the seven module placeholders are
each replaced globally by the corresponding casing transform of the token,
and every other double-brace token is left untouched. -/
theorem C4_placeholders_piecewise (ps : List Piece) (tok : String)
    (hps : piecesOK ps = true) (htok : litOK tok = true)
    (hdtok : dollarFree tok = true) :
    replacePlaceholders (render ps) tok
      = render (ps.map (substList (modulePairs tok))) := by
  rw [replacePlaceholders_eq_fold]
  exact jsReplace_fold_render (modulePairs tok) ps (modulePairs_ok tok htok hdtok) hps

theorem C4_witness :
    piecesOK [Piece.lit "const ", Piece.ph "name", Piece.lit " = ", Piece.ph "other"] = true
    ∧ litOK "userProfile" = true
    ∧ dollarFree "userProfile" = true
    ∧ replacePlaceholders
        (render [Piece.lit "const ", Piece.ph "name", Piece.lit " = ", Piece.ph "other"])
        "userProfile"
      = render ([Piece.lit "const ", Piece.ph "name", Piece.lit " = ",
          Piece.ph "other"].map (substList (modulePairs "userProfile"))) :=
  ⟨by decide, by decide, by decide,
   C4_placeholders_piecewise
     [Piece.lit "const ", Piece.ph "name", Piece.lit " = ", Piece.ph "other"]
     "userProfile" (by decide) (by decide) (by decide)⟩

/-- C5 fails as stated in two ways.  The passes are sequential per accumulator
key, so an accumulator text containing a later key's spelling is itself
rewritten: the `types` placeholder is not replaced by the `types` text
verbatim when that text contains the `fields` placeholder.  And an
accumulator text containing a dollar sign is not inserted verbatim:
`String.prototype.replace` interprets `$&` as the matched placeholder, so
`types` text `$&` leaves the placeholder in place rather than producing `$&`. -/
theorem C5_counterexample :
    (replaceBodyPlaceholders "\x7b\x7bbody:types\x7d\x7d"
        ⟨"", "\x7b\x7bbody:fields\x7d\x7d", "", "F", "", ""⟩ = "F"
    ∧ ("F" : String) ≠ "\x7b\x7bbody:fields\x7d\x7d")
    ∧ (replaceBodyPlaceholders "\x7b\x7bbody:types\x7d\x7d"
        ⟨"", "$&", "", "", "", ""⟩ = "\x7b\x7bbody:types\x7d\x7d"
    ∧ ("\x7b\x7bbody:types\x7d\x7d" : String) ≠ "$&") :=
  ⟨⟨by decide, by decide⟩, ⟨by decide, by decide⟩⟩

/-- C5 (amended): for contents decomposing into literal segments without an
opening brace and double-brace tokens with brace-free names, and accumulator
texts containing neither an opening brace nor a dollar sign, each of the four
spellings of each of the six accumulator keys is replaced globally by that
accumulator's text (an empty buffer erases its placeholder), and every other
token is untouched. -/
theorem C5_body_placeholders_piecewise (ps : List Piece) (r : BodyReplacements)
    (hps : piecesOK ps = true)
    (h1 : litOK r.formItems = true) (h2 : litOK r.types = true)
    (h3 : litOK r.defaultValues = true) (h4 : litOK r.fields = true)
    (h5 : litOK r.interfaces = true) (h6 : litOK r.zodSchema = true)
    (hd1 : dollarFree r.formItems = true) (hd2 : dollarFree r.types = true)
    (hd3 : dollarFree r.defaultValues = true) (hd4 : dollarFree r.fields = true)
    (hd5 : dollarFree r.interfaces = true) (hd6 : dollarFree r.zodSchema = true) :
    replaceBodyPlaceholders (render ps) r = render (ps.map (substList (bodyPairs r))) := by
  rw [replaceBodyPlaceholders_eq_fold]
  exact jsReplace_fold_render (bodyPairs r) ps
    (bodyPairs_ok r h1 h2 h3 h4 h5 h6 hd1 hd2 hd3 hd4 hd5 hd6) hps

theorem C5_witness :
    piecesOK [Piece.ph "body:types", Piece.lit "rest", Piece.ph " body: fields "] = true
    ∧ litOK "name: string;" = true
    ∧ dollarFree "name: string;" = true
    ∧ replaceBodyPlaceholders
        (render [Piece.ph "body:types", Piece.lit "rest", Piece.ph " body: fields "])
        ⟨"", "name: string;", "", "", "", ""⟩
      = render ([Piece.ph "body:types", Piece.lit "rest", Piece.ph " body: fields "].map
          (substList (bodyPairs ⟨"", "name: string;", "", "", "", ""⟩))) :=
  ⟨by decide, by decide, by decide,
   C5_body_placeholders_piecewise
     [Piece.ph "body:types", Piece.lit "rest", Piece.ph " body: fields "]
     ⟨"", "name: string;", "", "", "", ""⟩
     (by decide) (by decide) (by decide) (by decide) (by decide) (by decide) (by decide)
     (by decide) (by decide) (by decide) (by decide) (by decide) (by decide)⟩

/-- C2: Scenario B — for the nested body, the `interfaces` accumulator holds
the `Address` declaration with `city`/`country` members typed `string`; the
`types` accumulator holds `name: string;` and `address: Address;` and mentions
neither `city` nor `country`; `defaultValues` holds the nested literal with
both leaves defaulted to `''`; `fields` lists the three quoted paths in order.
The form-snippet map plays no role in these five accumulators, so the claim is
proved for every `FieldTypeMap`. -/
theorem C2_scenario_B (vt : List (String × String)) :
    (generateBodyReplacements vt scenarioB).interfaces
      = "export interface Address \x7b\n  city: string;\n  country: string;\n\x7d\n\n"
    ∧ (generateBodyReplacements vt scenarioB).types = "  name: string;\n  address: Address;\n"
    ∧ containsStr (generateBodyReplacements vt scenarioB).types "address: Address;" = true
    ∧ containsStr (generateBodyReplacements vt scenarioB).types "city" = false
    ∧ containsStr (generateBodyReplacements vt scenarioB).types "country" = false
    ∧ (generateBodyReplacements vt scenarioB).defaultValues
      = "name: '',\n  address: \x7b\n    city: '',\n    country: '',\n  \x7d"
    ∧ containsStr (generateBodyReplacements vt scenarioB).defaultValues "city: ''" = true
    ∧ containsStr (generateBodyReplacements vt scenarioB).defaultValues "country: ''" = true
    ∧ (generateBodyReplacements vt scenarioB).fields
      = "'name', 'address.city', 'address.country'" := by
  have hcap : capitalize "address" = "Address" := by decide
  have hty : (processEntries vt scenarioB "" emptyRepl).types
      = "  name: string;\n  address: Address;\n" := by
    simp [scenarioB, processEntries, processField, fullPathOf, emptyRepl, hcap]
  have hdv : (processEntries vt scenarioB "" emptyRepl).defaultValues
      = "  name: '',\n  address: \x7b\n    city: '',\n    country: '',\n  \x7d,\n" := by
    simp [scenarioB, processEntries, processField, fullPathOf, emptyRepl,
      generateNestedDefaults, entriesDefaults, defaultsOfVal]
  have hif : (processEntries vt scenarioB "" emptyRepl).interfaces
      = "export interface Address \x7b\n  city: string;\n  country: string;\n\x7d\n\n" := by
    simp [scenarioB, processEntries, processField, fullPathOf, emptyRepl, hcap,
      interfaceMembers, isGroupVal]
  have hfl : (processEntries vt scenarioB "" emptyRepl).fieldsList
      = ["'name'", "'address.city'", "'address.country'"] := by
    simp [scenarioB, processEntries, processField, fullPathOf, emptyRepl]
  have hg1 : (generateBodyReplacements vt scenarioB).interfaces
      = (processEntries vt scenarioB "" emptyRepl).interfaces := rfl
  have hg2 : (generateBodyReplacements vt scenarioB).types
      = (processEntries vt scenarioB "" emptyRepl).types := rfl
  have hg3 : (generateBodyReplacements vt scenarioB).defaultValues
      = stripTrailingComma (jsTrim (processEntries vt scenarioB "" emptyRepl).defaultValues) := rfl
  have hg4 : (generateBodyReplacements vt scenarioB).fields
      = joinFields (processEntries vt scenarioB "" emptyRepl).fieldsList := rfl
  rw [hg1, hg2, hg3, hg4, hty, hdv, hif, hfl]
  refine ⟨rfl, rfl, by decide, by decide, by decide, by decide, by decide, by decide, by decide⟩

/-- C3: a group at any depth (any prefix, empty or not) unconditionally
appends its `types` member line, its `defaultValues` entry, its interface
declaration and its `z.object` entry to the top-level accumulators, before the
recursive contributions of its children; consequently a group whose first
child is itself a group contributes that child's literal twice — inside the
parent's nested literal and as the child's own top-level entry. -/
theorem C3_group_unconditional_emission (vt : List (String × String)) (key pfx : String)
    (acc : Repl) (es : Entries) :
    (processField vt key (.obj es) pfx acc).types
      = acc.types ++ "  " ++ key ++ ": " ++ capitalize key ++ ";\n"
        ++ (processEntries vt es (fullPathOf pfx key) emptyRepl).types
    ∧ (processField vt key (.obj es) pfx acc).defaultValues
      = acc.defaultValues ++ "  " ++ key ++ ": " ++ generateNestedDefaults es ++ ",\n"
        ++ (processEntries vt es (fullPathOf pfx key) emptyRepl).defaultValues
    ∧ (processField vt key (.obj es) pfx acc).interfaces
      = acc.interfaces ++ "export interface " ++ capitalize key ++ " \x7b\n"
        ++ interfaceMembers es ++ "\x7d\n\n"
        ++ (processEntries vt es (fullPathOf pfx key) emptyRepl).interfaces
    ∧ (processField vt key (.obj es) pfx acc).zodSchema
      = acc.zodSchema ++ "  " ++ key ++ ": z.object(" ++ generateNestedZodSchema es ++ "),\n"
        ++ (processEntries vt es (fullPathOf pfx key) emptyRepl).zodSchema
    ∧ (∀ (ck : String) (ces crest : Entries), es = .cons ck (.obj ces) crest →
        (processField vt key (.obj es) pfx acc).defaultValues
          = acc.defaultValues
            ++ ("  " ++ key ++ ": \x7b\n" ++ "    " ++ ck ++ ": "
              ++ generateNestedDefaults ces ++ ",\n" ++ entriesDefaults crest ++ "  \x7d,\n")
            ++ ("  " ++ ck ++ ": " ++ generateNestedDefaults ces ++ ",\n")
            ++ (processEntries vt ces (fullPathOf (fullPathOf pfx key) ck)
                  emptyRepl).defaultValues
            ++ (processEntries vt crest (fullPathOf pfx key) emptyRepl).defaultValues) := by
  refine ⟨?_, ?_, ?_, ?_, ?_⟩
  · rw [processField, processEntries_delta]
    simp [rappend]
  · rw [processField, processEntries_delta]
    simp [rappend]
  · rw [processField, processEntries_delta]
    simp [rappend, String.append_assoc]
  · rw [processField, processEntries_delta]
    simp [rappend]
  · intro ck ces crest hes
    subst hes
    simp only [processField, processEntries, processEntries_entriesDelta, entriesDelta,
      rappend, emptyRepl]
    apply string_eq_of_data
    simp [String.data_append, generateNestedDefaults, entriesDefaults, defaultsOfVal,
      fullPathOf]

theorem C3_witness :
    (processField [] "outer" (.obj (.cons "inner" (.obj .nil) .nil)) "deep"
        emptyRepl).defaultValues
      = emptyRepl.defaultValues
        ++ ("  " ++ "outer" ++ ": \x7b\n" ++ "    " ++ "inner" ++ ": "
          ++ generateNestedDefaults .nil ++ ",\n" ++ entriesDefaults .nil ++ "  \x7d,\n")
        ++ ("  " ++ "inner" ++ ": " ++ generateNestedDefaults .nil ++ ",\n")
        ++ (processEntries [] .nil (fullPathOf (fullPathOf "deep" "outer") "inner")
              emptyRepl).defaultValues
        ++ (processEntries [] .nil (fullPathOf "deep" "outer") emptyRepl).defaultValues :=
  (C3_group_unconditional_emission [] "outer" "deep" emptyRepl
    (.cons "inner" (.obj .nil) .nil)).2.2.2.2 "inner" .nil .nil rfl
